import Mathlib

/-!
Verification of the anni-fetch core against its specification.

The development shallowly embeds the Rust sources:

* `src/io.rs`    — the pkt-line codec (`read_pktline`, `write_pktline`,
  `write_pktline_nolf`, `write_packet`, `read_len`, `take_sized`);
* `src/client.rs` — `RequestBuilder`, `Message`, the response iterator
  `PktIter`, and the post-processing of `Client::ls_ref`;
* `src/pack.rs`  — `Pack::from_reader` together with its helpers
  (`vint_from_reader`, `ofs_from_reader`) and error type `UnpackError`;
* `src/utils.rs` — `git_sha1` (over an abstract SHA-1 function).

Readers are modelled as byte lists (`List Nat`, each element a byte value);
a read returns the value together with the unconsumed suffix.  Rust panics
(`unwrap`, `assert_eq!`, `unreachable!`, index out of bounds) are modelled
by an explicit `panicked` outcome; a loop that can never terminate is
modelled by `diverge`.  External collaborators (the miniz_oxide inflater,
the sha1 crate, std string helpers) are abstract function parameters.
-/

namespace AnniFetch

/-! ## io.rs: hex length formatting and parsing

`format!("{:04x}", n)` produces the lowercase hex digits of `n`,
left-padded with ASCII zeros to at least four characters. -/

/-- ASCII code of the lowercase hex digit for `d < 16`. -/
def toHexDigitChar (d : Nat) : Nat := if d < 10 then 48 + d else 87 + d

/-- Fuelled big-endian hex digit expansion (ASCII codes). -/
def hexDigitsAux : Nat → Nat → List Nat
  | 0, _ => []
  | fuel + 1, n =>
    if n < 16 then [toHexDigitChar n]
    else hexDigitsAux fuel (n / 16) ++ [toHexDigitChar (n % 16)]

/-- Big-endian lowercase hex digits of `n` (ASCII codes), no padding. -/
def hexDigitsBE (n : Nat) : List Nat := hexDigitsAux (n + 1) n

/-- `format!("{:04x}", n)`: hex digits of `n` left-padded with `0` to width 4. -/
def hexFormat4 (n : Nat) : List Nat :=
  List.replicate (4 - (hexDigitsBE n).length) 48 ++ hexDigitsBE n

/-- Value of an ASCII hex digit, as accepted by `usize::from_str_radix(_, 16)`. -/
def hexDigitVal (c : Nat) : Option Nat :=
  if 48 ≤ c ∧ c ≤ 57 then some (c - 48)
  else if 97 ≤ c ∧ c ≤ 102 then some (c - 87)
  else if 65 ≤ c ∧ c ≤ 70 then some (c - 55)
  else none

/-- Accumulating digit fold of `from_str_radix(_, 16)`. -/
def parseHexGo : List Nat → Nat → Option Nat
  | [], acc => some acc
  | c :: rest, acc =>
    match hexDigitVal c with
    | some d => parseHexGo rest (acc * 16 + d)
    | none => none

/-- Model of `usize::from_str_radix(&String::from_utf8_lossy(s), 16)`:
an optional leading `+` sign followed by at least one hex digit.  Bytes
outside the ASCII hex digit range (including every byte `≥ 0x80`, which the
lossy conversion maps to non-digit characters) make the parse fail. -/
def parseHexRadix (s : List Nat) : Option Nat :=
  match (if s.head? = some 43 then s.tail else s) with
  | [] => none
  | c :: rest => parseHexGo (c :: rest) 0

/-! ## io.rs: reads and writes

A successful pure read never raises a `std::io::Error` (the in-memory
reader cannot fail), but `read_len` can panic through `.unwrap()` on a
malformed hex prefix, hence the explicit `panicked` outcome. -/

/-- Outcome of a read from an in-memory byte reader: the value together
with the unconsumed bytes, or a Rust panic. -/
inductive RRes (α : Type) where
  | ok : α → List Nat → RRes α
  | panicked : RRes α
deriving DecidableEq

/-- `take_sized(reader, len)`: read up to `len` bytes, returning the bytes
read, the count actually read, and the rest of the stream. -/
def take_sized (input : List Nat) (len : Nat) : (List Nat × Nat) × List Nat :=
  ((List.take len input, min len input.length), List.drop len input)

/-- `read_len`: read 4 bytes; on a short read return the sentinel `0x10000`;
otherwise parse them as hex, panicking (`unwrap`) if the parse fails. -/
def read_len (input : List Nat) : RRes Nat :=
  match take_sized input 4 with
  | ((next, got), rest) =>
    if got ≠ 4 then .ok 65536 rest
    else
      match parseHexRadix next with
      | some len => .ok len rest
      | none => .panicked

/-- `read_pktline`: decode one pkt-line frame, returning `(payload, length)`.
At end of stream the result is `([], 0)`; for `length < 4` the payload is
the four ASCII hex digits of the length (`format!("{:04x}", len)`). -/
def read_pktline (input : List Nat) : RRes (List Nat × Nat) :=
  match read_len input with
  | .panicked => .panicked
  | .ok len rest =>
    if len = 65536 then .ok ([], 0) rest
    else if 4 ≤ len then
      match take_sized rest (len - 4) with
      | ((data, _), rest2) => .ok (data, len) rest2
    else .ok (hexFormat4 len, len) rest

/-- `write_pktline(writer, data)`: length prefix `{:04x}` of
`data.len() + 1 + 4`, then the payload, then a trailing LF. -/
def write_pktline (data : List Nat) : List Nat :=
  hexFormat4 (data.length + 1 + 4) ++ data ++ [10]

/-- `write_pktline_nolf(writer, data)`: length prefix `{:04x}` of
`data.len() + 4`, then the payload, no LF. -/
def write_pktline_nolf (data : List Nat) : List Nat :=
  hexFormat4 (data.length + 4) ++ data

/-- `write_packet(writer, d)`: the four hex digits of the sentinel value. -/
def write_packet (d : Nat) : List Nat := hexFormat4 d

/-! ### Arithmetic facts about the hex codec -/

lemma hexDigitsAux_congr :
    ∀ f1 f2 n, n < f1 → n < f2 → hexDigitsAux f1 n = hexDigitsAux f2 n := by
  intro f1
  induction f1 with
  | zero => intro f2 n h1; omega
  | succ f ih =>
    intro f2 n h1 h2
    match f2, h2 with
    | f2 + 1, _ =>
      simp only [hexDigitsAux]
      by_cases h16 : n < 16
      · simp [h16]
      · have hdiv : n / 16 < n := Nat.div_lt_self (by omega) (by omega)
        rw [if_neg h16, if_neg h16, ih (f2) (n / 16) (by omega) (by omega)]

lemma hexDigitsBE_unfold (n : Nat) :
    hexDigitsBE n =
      if n < 16 then [toHexDigitChar n]
      else hexDigitsBE (n / 16) ++ [toHexDigitChar (n % 16)] := by
  by_cases h16 : n < 16
  · simp [hexDigitsBE, hexDigitsAux, h16]
  · have hdiv : n / 16 < n := Nat.div_lt_self (by omega) (by omega)
    rw [if_neg h16]
    show hexDigitsAux (n + 1) n = _
    rw [show hexDigitsAux (n + 1) n =
        (if n < 16 then [toHexDigitChar n]
         else hexDigitsAux n (n / 16) ++ [toHexDigitChar (n % 16)]) from rfl]
    rw [if_neg h16, hexDigitsAux_congr n (n / 16 + 1) (n / 16) (by omega) (by omega)]
    rfl

lemma hexDigitVal_toHex (d : Nat) (h : d < 16) :
    hexDigitVal (toHexDigitChar d) = some d := by
  unfold toHexDigitChar hexDigitVal
  by_cases h10 : d < 10
  · rw [if_pos h10, if_pos (by omega)]
    congr 1
    omega
  · rw [if_neg h10, if_neg (by omega), if_pos (by omega)]
    congr 1
    omega

lemma toHexDigitChar_ge (d : Nat) : 48 ≤ toHexDigitChar d := by
  unfold toHexDigitChar
  split <;> omega

lemma parseHexGo_append (l1 l2 : List Nat) :
    ∀ acc, parseHexGo (l1 ++ l2) acc =
      Option.bind (parseHexGo l1 acc) (parseHexGo l2) := by
  induction l1 with
  | nil => intro acc; rfl
  | cons c rest ih =>
    intro acc
    simp only [List.cons_append, parseHexGo]
    cases hexDigitVal c with
    | none => rfl
    | some d => exact ih (acc * 16 + d)

lemma hexDigitsBE_ne_nil (n : Nat) : hexDigitsBE n ≠ [] := by
  rw [hexDigitsBE_unfold]
  split <;> simp

lemma hexDigitsBE_all_ge (n : Nat) : ∀ c ∈ hexDigitsBE n, 48 ≤ c := by
  induction n using Nat.strong_induction_on with
  | _ n ih =>
    rw [hexDigitsBE_unfold]
    by_cases h16 : n < 16
    · simp only [if_pos h16, List.mem_singleton]
      rintro c rfl
      exact toHexDigitChar_ge n
    · have hdiv : n / 16 < n := Nat.div_lt_self (by omega) (by omega)
      simp only [if_neg h16, List.mem_append, List.mem_singleton]
      rintro c (hc | rfl)
      · exact ih (n / 16) hdiv c hc
      · exact toHexDigitChar_ge (n % 16)

lemma parseHexGo_hexDigitsBE (n : Nat) :
    ∀ acc, parseHexGo (hexDigitsBE n) acc =
      some (acc * 16 ^ (hexDigitsBE n).length + n) := by
  induction n using Nat.strong_induction_on with
  | _ n ih =>
    intro acc
    rw [hexDigitsBE_unfold]
    by_cases h16 : n < 16
    · simp only [if_pos h16, parseHexGo, hexDigitVal_toHex n h16]
      simp [pow_one]
    · have hdiv : n / 16 < n := Nat.div_lt_self (by omega) (by omega)
      simp only [if_neg h16]
      rw [parseHexGo_append, ih (n / 16) hdiv acc]
      simp only [Option.some_bind, parseHexGo, hexDigitVal_toHex (n % 16) (by omega)]
      congr 1
      simp only [List.length_append, List.length_singleton]
      have hmod : n / 16 * 16 + n % 16 = n := by omega
      calc (acc * 16 ^ (hexDigitsBE (n / 16)).length + n / 16) * 16 + n % 16
          = acc * (16 ^ (hexDigitsBE (n / 16)).length * 16) +
              (n / 16 * 16 + n % 16) := by ring
        _ = acc * 16 ^ ((hexDigitsBE (n / 16)).length + 1) + n := by
              rw [hmod, pow_succ]

lemma parseHexGo_replicate_zero (k : Nat) :
    parseHexGo (List.replicate k 48) 0 = some 0 := by
  induction k with
  | zero => rfl
  | succ k ih =>
    simp only [List.replicate_succ, parseHexGo]
    rw [show hexDigitVal 48 = some 0 by decide]
    simpa using ih

lemma hexDigitsBE_length_le : ∀ k n : Nat, n < 16 ^ (k + 1) →
    (hexDigitsBE n).length ≤ k + 1 := by
  intro k
  induction k with
  | zero =>
    intro n h
    rw [hexDigitsBE_unfold, if_pos (by simpa using h)]
    simp
  | succ k ih =>
    intro n h
    rw [hexDigitsBE_unfold]
    by_cases h16 : n < 16
    · simp [h16]
    · rw [if_neg h16]
      have hlt : n / 16 < 16 ^ (k + 1) := by
        rw [Nat.div_lt_iff_lt_mul (by omega)]
        calc n < 16 ^ (k + 1 + 1) := h
        _ = 16 ^ (k + 1) * 16 := by ring
      have := ih (n / 16) hlt
      simp only [List.length_append, List.length_singleton]
      omega

lemma hexFormat4_length (n : Nat) (h : n < 65536) : (hexFormat4 n).length = 4 := by
  have hle : (hexDigitsBE n).length ≤ 4 := by
    have := hexDigitsBE_length_le 3 n (by norm_num; omega)
    omega
  simp only [hexFormat4, List.length_append, List.length_replicate]
  omega

lemma parseHexRadix_hexFormat4 (n : Nat) (h : n < 65536) :
    parseHexRadix (hexFormat4 n) = some n := by
  have hne : hexFormat4 n ≠ [] := by
    have := hexFormat4_length n h
    intro hcon
    rw [hcon] at this
    simp at this
  have hhead : (hexFormat4 n).head? ≠ some 43 := by
    intro hcon
    have hmem : 43 ∈ hexFormat4 n := by
      cases hfn : hexFormat4 n with
      | nil => exact absurd hfn hne
      | cons a l =>
        rw [hfn] at hcon
        simp only [List.head?_cons, Option.some_inj] at hcon
        simp [hcon]
    simp only [hexFormat4, List.mem_append, List.mem_replicate] at hmem
    rcases hmem with h1 | h2
    · omega
    · have := hexDigitsBE_all_ge n 43 h2
      omega

  have hgo : parseHexGo (hexFormat4 n) 0 = some n := by
    unfold hexFormat4
    rw [parseHexGo_append, parseHexGo_replicate_zero]
    simp only [Option.some_bind]
    rw [parseHexGo_hexDigitsBE]
    simp
  unfold parseHexRadix
  rw [if_neg hhead]
  cases hfn : hexFormat4 n with
  | nil => exact absurd hfn hne
  | cons a l =>
    dsimp only
    rw [← hfn, hgo]

/-! ### C3 and the actual sentinel payloads -/

lemma read_len_parsed (input : List Nat) (n : Nat)
    (hp : parseHexRadix (List.take 4 input) = some n)
    (hlen : 4 ≤ input.length) :
    read_len input = .ok n (List.drop 4 input) := by
  unfold read_len take_sized
  have hmin : min 4 input.length = 4 := by omega
  dsimp only
  rw [hmin, if_neg (by omega : ¬(4 : Nat) ≠ 4), hp]

lemma read_pktline_parsed_small (input : List Nat) (n : Nat)
    (hp : parseHexRadix (List.take 4 input) = some n)
    (hlen : 4 ≤ input.length) (hn : n < 4) :
    read_pktline input = .ok (hexFormat4 n, n) (List.drop 4 input) := by
  unfold read_pktline
  rw [read_len_parsed input n hp hlen]
  dsimp only
  rw [if_neg (by omega : ¬n = 65536), if_neg (by omega : ¬4 ≤ n)]

lemma read_pktline_append_small (pre rest : List Nat) (n : Nat)
    (hpre : pre.length = 4) (hp : parseHexRadix pre = some n) (hn : n < 4) :
    read_pktline (pre ++ rest) = .ok (hexFormat4 n, n) rest := by
  have h1 : List.take 4 (pre ++ rest) = pre := List.take_left' hpre
  have h2 : List.drop 4 (pre ++ rest) = rest := List.drop_left' hpre
  have h3 := read_pktline_parsed_small (pre ++ rest) n (by rw [h1]; exact hp)
    (by rw [List.length_append]; omega) hn
  rw [h2] at h3
  exact h3

/-- C3 counterexample: decoding the bytes `"0000"` yields length 0 with the
payload `"0000"` itself (four ASCII digits), not an empty payload. -/
theorem c3_counterexample :
    read_pktline [48, 48, 48, 48] = .ok ([48, 48, 48, 48], 0) [] ∧
    ([48, 48, 48, 48] : List Nat) ≠ [] := by
  constructor
  · decide
  · decide

/-- C3 (amended): for a reader whose next four bytes are the ASCII digits
`"0000"`, `"0001"`, or `"0002"`, `read_pktline` returns length 0, 1, or 2
respectively, paired with a payload equal to those four ASCII digits
(the code re-formats the length with `format!("{:04x}", len)`). -/
theorem c3_sentinel_payload (rest : List Nat) :
    read_pktline ([48, 48, 48, 48] ++ rest) = .ok ([48, 48, 48, 48], 0) rest ∧
    read_pktline ([48, 48, 48, 49] ++ rest) = .ok ([48, 48, 48, 49], 1) rest ∧
    read_pktline ([48, 48, 48, 50] ++ rest) = .ok ([48, 48, 48, 50], 2) rest := by
  refine ⟨?_, ?_, ?_⟩
  · have h := read_pktline_append_small [48, 48, 48, 48] rest 0
      (by decide) (by decide) (by decide)
    rw [(by decide : hexFormat4 0 = [48, 48, 48, 48])] at h
    exact h
  · have h := read_pktline_append_small [48, 48, 48, 49] rest 1
      (by decide) (by decide) (by decide)
    rw [(by decide : hexFormat4 1 = [48, 48, 48, 49])] at h
    exact h
  · have h := read_pktline_append_small [48, 48, 48, 50] rest 2
      (by decide) (by decide) (by decide)
    rw [(by decide : hexFormat4 2 = [48, 48, 48, 50])] at h
    exact h

/-! ### C5: pkt-line round trip -/

/-- C5: for every byte string `s` containing no NUL and of length at most
65531, decoding the output of `write_pktline_nolf(_, s)` yields exactly the
pair `(s, len(s) + 4)` (consuming the whole buffer). -/
theorem c5_pktline_roundtrip (s : List Nat) (_h0 : 0 ∉ s) (h1 : s.length ≤ 65531) :
    read_pktline (write_pktline_nolf s) = .ok (s, s.length + 4) [] := by
  have hlt : s.length + 4 < 65536 := by omega
  have hfl : (hexFormat4 (s.length + 4)).length = 4 := hexFormat4_length _ hlt
  unfold write_pktline_nolf
  have hp : parseHexRadix (List.take 4 (hexFormat4 (s.length + 4) ++ s)) =
      some (s.length + 4) := by
    rw [List.take_left' hfl]
    exact parseHexRadix_hexFormat4 _ hlt
  have hrest : List.drop 4 (hexFormat4 (s.length + 4) ++ s) = s :=
    List.drop_left' hfl
  unfold read_pktline
  rw [read_len_parsed _ (s.length + 4) hp
    (by rw [List.length_append]; omega)]
  dsimp only
  rw [if_neg (by omega : ¬s.length + 4 = 65536), if_pos (by omega : 4 ≤ s.length + 4)]
  unfold take_sized
  dsimp only
  rw [hrest]
  simp

/-- C5 witness: the round trip at the concrete payload `"abc"`. -/
theorem c5_witness :
    (0 ∉ [97, 98, 99] ∧ ([97, 98, 99] : List Nat).length ≤ 65531) ∧
    read_pktline (write_pktline_nolf [97, 98, 99]) = .ok ([97, 98, 99], 7) [] :=
  ⟨⟨by decide, by decide⟩, c5_pktline_roundtrip [97, 98, 99] (by decide) (by decide)⟩

/-! ### C6: length 3 and invalid hex prefixes -/

/-- C6 counterexample: on the bytes `"0003"` (followed by anything),
`read_pktline` does not fail at all: it returns `Ok((b"0003", 3))`,
treating length 3 like the other short lengths. -/
theorem c6_counterexample :
    read_pktline [48, 48, 48, 51, 7, 7, 7] = .ok ([48, 48, 48, 51], 3) [7, 7, 7] := by
  decide

/-- C6 (amended): when the 4-byte prefix parses to 3, `read_pktline`
returns `Ok` with the four ASCII digits `"0003"` as payload and length 3;
when the prefix is not valid hexadecimal, the `.unwrap()` in `read_len`
panics.  No `MalformedFrame` error value exists or is returned. -/
theorem c6_len3_and_invalid_hex :
    (∀ rest : List Nat,
      read_pktline ([48, 48, 48, 51] ++ rest) = .ok ([48, 48, 48, 51], 3) rest) ∧
    (∀ input : List Nat, 4 ≤ input.length →
      parseHexRadix (List.take 4 input) = none → read_pktline input = .panicked) := by
  constructor
  · intro rest
    have h := read_pktline_append_small [48, 48, 48, 51] rest 3
      (by decide) (by decide) (by decide)
    rw [(by decide : hexFormat4 3 = [48, 48, 48, 51])] at h
    exact h
  · intro input hlen hp
    have hlenres : read_len input = .panicked := by
      unfold read_len take_sized
      have hmin : min 4 input.length = 4 := by omega
      dsimp only
      rw [hmin, if_neg (by omega : ¬(4 : Nat) ≠ 4), hp]
    unfold read_pktline
    rw [hlenres]

/-- C6 witness: the panic branch at the concrete non-hex prefix `"zzzz"`. -/
theorem c6_witness :
    read_pktline [122, 122, 122, 122] = .panicked :=
  c6_len3_and_invalid_hex.2 [122, 122, 122, 122] (by decide) (by decide)

/-- C9 counterexample: `write_pktline(_, "test")` does not produce the
9-byte sequence `30 30 30 35 74 65 73 74 0a` claimed by the specification. -/
theorem c9_counterexample :
    write_pktline [116, 101, 115, 116] ≠
      [48, 48, 48, 53, 116, 101, 115, 116, 10] := by
  decide

/-- C9 (amended): `write_pktline(_, "test")` writes exactly the 9-byte
sequence `30 30 30 39 74 65 73 74 0a`, i.e. `"0009test\n"` — the length
prefix counts payload + trailing LF + 4. -/
theorem c9_write_pktline_test :
    write_pktline [116, 101, 115, 116] =
      [48, 48, 48, 57, 116, 101, 115, 116, 10] := by
  decide

/-! ## client.rs: messages and the request builder

`Message` is the discriminated union produced by `PktIter`; the string
payloads of `PackProgress` / `PackError` are modelled as byte lists. -/

/-- The `Message` enum of `client.rs`. -/
inductive Message where
  | Normal : List Nat → Message
  | Flush : Message
  | Delimeter : Message
  | ResponseEnd : Message
  | PackStart : Message
  | PackData : List Nat → Message
  | PackProgress : List Nat → Message
  | PackError : List Nat → Message
deriving DecidableEq

/-- ASCII bytes of `"object-format=sha1"`. -/
def objectFormatSha1 : List Nat :=
  [111, 98, 106, 101, 99, 116, 45, 102, 111, 114, 109, 97, 116, 61, 115, 104, 97, 49]

/-- ASCII bytes of `"agent=git/2.28.0"`. -/
def agentGit2280 : List Nat :=
  [97, 103, 101, 110, 116, 61, 103, 105, 116, 47, 50, 46, 50, 56, 46, 48]

/-- ASCII bytes of `"command="`. -/
def commandEq : List Nat := [99, 111, 109, 109, 97, 110, 100, 61]

/-- The `RequestBuilder` struct: an in-memory buffer plus the two
already-written flags.  `new(auto_packet)` pre-writes the two capability
pkt-lines and initialises both flags TO `auto_packet` (this is the
behaviour under scrutiny in claim C2). -/
structure RequestBuilder where
  inner : List Nat
  delimeter_written : Bool
  flush_written : Bool
deriving DecidableEq

/-- `RequestBuilder::new(auto_packet)`. -/
def RequestBuilder.new (auto_packet : Bool) : RequestBuilder :=
  { inner := write_pktline objectFormatSha1 ++ write_pktline agentGit2280,
    delimeter_written := auto_packet,
    flush_written := auto_packet }

/-- `RequestBuilder::command(name)`: appends `command=<name>` as a pkt-line. -/
def RequestBuilder.command (b : RequestBuilder) (cmd : List Nat) : RequestBuilder :=
  { b with inner := b.inner ++ write_pktline (commandEq ++ cmd) }

/-- `RequestBuilder::capability(name, values)`: `name=v1 v2 ...` or bare
`name`, as a pkt-line. -/
def RequestBuilder.capability (b : RequestBuilder) (name : List Nat)
    (values : List (List Nat)) : RequestBuilder :=
  if values.length ≠ 0 then
    { b with inner := b.inner ++ write_pktline (name ++ [61] ++ List.intercalate [32] values) }
  else
    { b with inner := b.inner ++ write_pktline name }

/-- `RequestBuilder::packet(kind)`: writes the sentinel for Flush /
Delimeter / ResponseEnd; `none` models the `panic!` on any other kind. -/
def RequestBuilder.packet (b : RequestBuilder) (m : Message) : Option RequestBuilder :=
  match m with
  | .Flush => some { b with inner := b.inner ++ write_packet 0 }
  | .Delimeter => some { b with inner := b.inner ++ write_packet 1 }
  | .ResponseEnd => some { b with inner := b.inner ++ write_packet 2 }
  | _ => none

/-- `RequestBuilder::argument(arg)`: if `delimeter_written` is unset,
first `self.packet(Message::Delimeter)` (inlined here: appends the `0001`
sentinel) and set the flag; then append `arg` as a pkt-line. -/
def RequestBuilder.argument (b : RequestBuilder) (arg : List Nat) : RequestBuilder :=
  let b1 :=
    if !b.delimeter_written then
      { b with inner := b.inner ++ write_packet 1, delimeter_written := true }
    else b
  { b1 with inner := b1.inner ++ write_pktline arg }

/-- `RequestBuilder::want(hash)`: `argument("want " + hash)`. -/
def RequestBuilder.want (b : RequestBuilder) (hash : List Nat) : RequestBuilder :=
  b.argument ([119, 97, 110, 116, 32] ++ hash)

/-- `RequestBuilder::have(hash)` (renamed: `have` is a Lean keyword):
`argument("have " + hash)`. -/
def RequestBuilder.haveHash (b : RequestBuilder) (hash : List Nat) : RequestBuilder :=
  b.argument ([104, 97, 118, 101, 32] ++ hash)

/-- `RequestBuilder::build()`: if `flush_written` is unset, append the
`0000` sentinel (inlined `self.packet(Message::Flush)`); return the buffer. -/
def RequestBuilder.build (b : RequestBuilder) : List Nat :=
  if !b.flush_written then b.inner ++ write_packet 0 else b.inner

/-! ### C2: the auto_packet flags are inverted

With `auto_packet = true` the constructor marks both sentinels as already
written, so `argument` emits no Delim and `build` emits no Flush; with
`auto_packet = false` both sentinels ARE auto-emitted.  This contradicts
the documented meaning of `auto_packet` and the deprecated
`Client::command`, which emits both for the same request. -/

/-- ASCII bytes of `"fetch"`. -/
def fetchBytes : List Nat := [102, 101, 116, 99, 104]

/-- ASCII bytes of `"done"`. -/
def doneBytes : List Nat := [100, 111, 110, 101]

/-- C2: evaluating `RequestBuilder::new(auto_packet)` on the failing input.
With `auto_packet = true`, `new(true).command("fetch").argument("done").build()`
contains no Delim (`0001`) sentinel before the argument and no trailing
Flush (`0000`); with `auto_packet = false` both sentinels are emitted.
The initialisation `delimeter_written: auto_packet, flush_written:
auto_packet` inverts the documented meaning of `auto_packet`. -/
theorem c2_auto_packet_inverted :
    (((RequestBuilder.new true).command fetchBytes).argument doneBytes).build =
      write_pktline objectFormatSha1 ++ write_pktline agentGit2280 ++
      write_pktline (commandEq ++ fetchBytes) ++ write_pktline doneBytes ∧
    (((RequestBuilder.new false).command fetchBytes).argument doneBytes).build =
      write_pktline objectFormatSha1 ++ write_pktline agentGit2280 ++
      write_pktline (commandEq ++ fetchBytes) ++ write_packet 1 ++
      write_pktline doneBytes ++ write_packet 0 := by
  constructor
  · decide
  · decide

/-! ## client.rs: the response iterator `PktIter`

`PktIter` holds a reader and the `is_data` flag.  A call to `next` is a
function of the flag and the remaining bytes.  The std helper
`String::from_utf8_lossy(..).trim()` applied to progress/error payloads
is external; it is an abstract parameter `lt`. -/

/-- Result of one `PktIter::next` call: end of iteration (`None`), a
yielded message together with the updated `is_data` flag and the remaining
bytes, or a Rust panic (`unwrap` on a malformed frame, indexing `data[0]`
on an empty payload, or the `unreachable!()` arm). -/
inductive IterStep where
  | stop : IterStep
  | yield : Message → Bool → List Nat → IterStep
  | panicked : IterStep
deriving DecidableEq

/-- ASCII bytes of `"packfile\n"`. -/
def packfileBytes : List Nat := [112, 97, 99, 107, 102, 105, 108, 101, 10]

/-- One step of `PktIter::next`, faithful to the branch order of the
source: termination test, side-band demultiplexing, `packfile\n`
detection, then sentinel/Normal classification. -/
def pktIterNext (lt : List Nat → List Nat) (is_data : Bool) (input : List Nat) :
    IterStep :=
  match read_pktline input with
  | .panicked => .panicked
  | .ok (data, len) rest =>
    if len = 0 ∧ data.length = 0 then .stop
    else if 0 < len ∧ is_data = true then
      match data with
      | [] => .panicked
      | d0 :: dtail =>
        if d0 = 1 then .yield (.PackData dtail) is_data rest
        else if d0 = 2 then .yield (.PackProgress (lt dtail)) is_data rest
        else if d0 = 3 then .yield (.PackError (lt dtail)) is_data rest
        else .panicked
    else if data = packfileBytes then .yield .PackStart true rest
    else
      .yield
        (if len = 0 then .Flush
         else if len = 1 then .Delimeter
         else if len = 2 then .ResponseEnd
         else .Normal data) is_data rest

/-- How a fuelled iteration of `PktIter` ended. -/
inductive RunEnd where
  | ended : RunEnd
  | panicked : RunEnd
  | fuelOut : RunEnd
deriving DecidableEq

/-- Iterate `pktIterNext` collecting the produced messages.  The fuel only
bounds the number of steps (each emitted message consumes at least four
bytes, so `input.length` fuel always suffices); every stated property
holds for every fuel value. -/
def pktIterRun (lt : List Nat → List Nat) : Nat → Bool → List Nat →
    List Message × RunEnd
  | 0, _, _ => ([], .fuelOut)
  | fuel + 1, isd, input =>
    match pktIterNext lt isd input with
    | .stop => ([], .ended)
    | .panicked => ([], .panicked)
    | .yield m isd2 rest =>
      let r := pktIterRun lt fuel isd2 rest
      (m :: r.1, r.2)

/-- Is the message `PackStart`? -/
def Message.isStart : Message → Bool
  | .PackStart => true
  | _ => false

/-- Is the message one of the side-band messages
`PackData` / `PackProgress` / `PackError`? -/
def Message.isPackish : Message → Bool
  | .PackData _ => true
  | .PackProgress _ => true
  | .PackError _ => true
  | _ => false

/-! ### Step characterisation lemmas -/

lemma read_pktline_len_zero (input data : List Nat) (rest : List Nat)
    (h : read_pktline input = .ok (data, 0) rest) :
    data = [] ∨ data = [48, 48, 48, 48] := by
  unfold read_pktline at h
  cases hrl : read_len input with
  | panicked => rw [hrl] at h; exact absurd h (by simp)
  | ok len rest1 =>
    rw [hrl] at h
    dsimp only at h
    by_cases h1 : len = 65536
    · rw [if_pos h1] at h
      injection h with hpair hrest
      injection hpair with hdata hlen
      exact Or.inl hdata.symm
    · rw [if_neg h1] at h
      by_cases h2 : 4 ≤ len
      · rw [if_pos h2] at h
        unfold take_sized at h
        dsimp only at h
        injection h with hpair hrest
        injection hpair with hdata hlen
        omega
      · rw [if_neg h2] at h
        injection h with hpair hrest
        injection hpair with hdata hlen
        subst hlen
        rw [← hdata]
        right
        decide

lemma pktIterNext_true (lt : List Nat → List Nat) (input : List Nat)
    (m : Message) (isd2 : Bool) (rest : List Nat)
    (h : pktIterNext lt true input = .yield m isd2 rest) :
    isd2 = true ∧ m.isStart = false := by
  unfold pktIterNext at h
  cases hrl : read_pktline input with
  | panicked => rw [hrl] at h; exact absurd h (by simp)
  | ok p rest1 =>
    obtain ⟨data, len⟩ := p
    rw [hrl] at h
    dsimp only at h
    by_cases hstop : len = 0 ∧ data.length = 0
    · rw [if_pos hstop] at h; exact absurd h (by simp)
    · rw [if_neg hstop] at h
      by_cases hsb : 0 < len ∧ true = true
      · rw [if_pos hsb] at h
        cases data with
        | nil => exact absurd h (by simp)
        | cons d0 dtail =>
          dsimp only at h
          by_cases h1 : d0 = 1
          · rw [if_pos h1] at h
            injection h with hm hb hr
            subst hm hb
            exact ⟨rfl, rfl⟩
          · rw [if_neg h1] at h
            by_cases h2 : d0 = 2
            · rw [if_pos h2] at h
              injection h with hm hb hr
              subst hm hb
              exact ⟨rfl, rfl⟩
            · rw [if_neg h2] at h
              by_cases h3 : d0 = 3
              · rw [if_pos h3] at h
                injection h with hm hb hr
                subst hm hb
                exact ⟨rfl, rfl⟩
              · rw [if_neg h3] at h
                exact absurd h (by simp)
      · have hlen : len = 0 := by
          by_contra hc
          exact hsb ⟨by omega, rfl⟩
        subst hlen
        have hdata := read_pktline_len_zero input data rest1 hrl
        have hpf : ¬data = packfileBytes := by
          rcases hdata with rfl | rfl
          · decide
          · decide
        rw [if_neg hpf] at h
        rw [if_pos rfl] at h
        injection h with hm hb hr
        subst hm hb
        exact ⟨rfl, rfl⟩

lemma pktIterNext_false (lt : List Nat → List Nat) (input : List Nat)
    (m : Message) (isd2 : Bool) (rest : List Nat)
    (h : pktIterNext lt false input = .yield m isd2 rest) :
    (m = .PackStart ∧ isd2 = true) ∨
      (isd2 = false ∧ m.isStart = false ∧ m.isPackish = false) := by
  unfold pktIterNext at h
  cases hrl : read_pktline input with
  | panicked => rw [hrl] at h; exact absurd h (by simp)
  | ok p rest1 =>
    obtain ⟨data, len⟩ := p
    rw [hrl] at h
    dsimp only at h
    by_cases hstop : len = 0 ∧ data.length = 0
    · rw [if_pos hstop] at h; exact absurd h (by simp)
    · rw [if_neg hstop] at h
      rw [if_neg (by simp : ¬(0 < len ∧ false = true))] at h
      by_cases hpf : data = packfileBytes
      · rw [if_pos hpf] at h
        injection h with hm hb hr
        subst hm hb
        exact Or.inl ⟨rfl, rfl⟩
      · rw [if_neg hpf] at h
        injection h with hm hb hr
        subst hb
        refine Or.inr ⟨rfl, ?_, ?_⟩ <;>
        · rw [← hm]
          split
          · rfl
          · split
            · rfl
            · split
              · rfl
              · rfl

lemma pktIterNext_packstart (lt : List Nat → List Nat) (isd : Bool)
    (input : List Nat) (isd2 : Bool) (rest : List Nat)
    (h : pktIterNext lt isd input = .yield .PackStart isd2 rest) :
    isd = false ∧ isd2 = true ∧
      ∃ len, read_pktline input = .ok (packfileBytes, len) rest := by
  cases isd with
  | true =>
    have := (pktIterNext_true lt input .PackStart isd2 rest h).2
    exact absurd this (by simp [Message.isStart])
  | false =>
    refine ⟨rfl, ?_, ?_⟩
    · rcases pktIterNext_false lt input .PackStart isd2 rest h with ⟨_, h2⟩ | ⟨_, h2, _⟩
      · exact h2
      · exact absurd h2 (by simp [Message.isStart])
    · unfold pktIterNext at h
      cases hrl : read_pktline input with
      | panicked => rw [hrl] at h; exact absurd h (by simp)
      | ok p rest1 =>
        obtain ⟨data, len⟩ := p
        rw [hrl] at h
        dsimp only at h
        by_cases hstop : len = 0 ∧ data.length = 0
        · rw [if_pos hstop] at h; exact absurd h (by simp)
        · rw [if_neg hstop] at h
          rw [if_neg (by simp : ¬(0 < len ∧ false = true))] at h
          by_cases hpf : data = packfileBytes
          · rw [if_pos hpf] at h
            injection h with hm hb hr
            refine ⟨len, ?_⟩
            rw [hpf, hr]

          · rw [if_neg hpf] at h
            injection h with hm hb hr
            revert hm
            split
            · intro hm; exact absurd hm (by simp)
            · split
              · intro hm; exact absurd hm (by simp)
              · split
                · intro hm; exact absurd hm (by simp)
                · intro hm; exact absurd hm (by simp)

/-! ### Whole-run lemmas -/

lemma pktIterRun_true_no_start (lt : List Nat → List Nat) :
    ∀ fuel input m, m ∈ (pktIterRun lt fuel true input).1 → m.isStart = false := by
  intro fuel
  induction fuel with
  | zero => intro input m hm; simp [pktIterRun] at hm
  | succ fuel ih =>
    intro input m hm
    unfold pktIterRun at hm
    cases hstep : pktIterNext lt true input with
    | stop => rw [hstep] at hm; simp at hm
    | panicked => rw [hstep] at hm; simp at hm
    | yield m1 isd2 rest =>
      rw [hstep] at hm
      obtain ⟨hisd2, hm1⟩ := pktIterNext_true lt input m1 isd2 rest hstep
      subst hisd2
      simp only [List.mem_cons] at hm
      rcases hm with rfl | hm
      · exact hm1
      · exact ih rest m hm

lemma pktIterRun_false_spec (lt : List Nat → List Nat) :
    ∀ (fuel : Nat) (input : List Nat),
      (pktIterRun lt fuel false input).1.countP (fun m => m.isStart) ≤ 1 ∧
      (∀ (i : Nat) (m : Message),
        ((pktIterRun lt fuel false input).1)[i]? = some m →
        m.isPackish = true →
        ∃ j, j < i ∧ ((pktIterRun lt fuel false input).1)[j]? =
          some Message.PackStart) := by
  intro fuel
  induction fuel with
  | zero =>
    intro input
    constructor
    · simp [pktIterRun]
    · intro i m hm
      simp [pktIterRun] at hm
  | succ fuel ih =>
    intro input
    unfold pktIterRun
    cases hstep : pktIterNext lt false input with
    | stop =>
      dsimp only
      constructor
      · simp
      · intro i m hm; simp at hm
    | panicked =>
      dsimp only
      constructor
      · simp
      · intro i m hm; simp at hm
    | yield m1 isd2 rest =>
      dsimp only
      rcases pktIterNext_false lt input m1 isd2 rest hstep with
        ⟨hm1, hisd2⟩ | ⟨hisd2, hstart, hpackish⟩
      · subst hm1 hisd2
        constructor
        · rw [List.countP_cons]
          have hz : (pktIterRun lt fuel true rest).1.countP (fun m => m.isStart) = 0 := by
            rw [List.countP_eq_zero]
            intro m hm
            simp [pktIterRun_true_no_start lt fuel rest m hm]
          rw [hz]
          simp [Message.isStart]
        · intro i m hm hpk
          cases i with
          | zero =>
            rw [List.getElem?_cons_zero] at hm
            injection hm with hm
            subst hm
            exact absurd hpk (by simp [Message.isPackish])
          | succ i =>
            exact ⟨0, by omega, by rw [List.getElem?_cons_zero]⟩
      · subst hisd2
        obtain ⟨hcount, hord⟩ := ih rest
        constructor
        · rw [List.countP_cons, hstart]
          simpa using hcount
        · intro i m hm hpk
          cases i with
          | zero =>
            rw [List.getElem?_cons_zero] at hm
            injection hm with hm
            subst hm
            rw [hpk] at hpackish
            exact absurd hpackish (by simp)
          | succ i =>
            rw [List.getElem?_cons_succ] at hm
            obtain ⟨j, hj, hjs⟩ := hord i m hm hpk
            exact ⟨j + 1, by omega, by rw [List.getElem?_cons_succ]; exact hjs⟩

/-! ### C7: side-band mode ordering -/

/-- C7: in every message sequence produced by `PktIter` (started with
`is_data = false`, any fuel): the side-band flag is never cleared once
set; `PackStart` is yielded only when the frame payload equals the ASCII
bytes `packfile\n` while not yet in side-band mode (and sets the flag);
`PackStart` is emitted at most once; and `PackStart` precedes every
`PackData`, `PackProgress` and `PackError` message. -/
theorem c7_pktiter_ordering (lt : List Nat → List Nat) :
    (∀ input m isd2 rest,
      pktIterNext lt true input = .yield m isd2 rest → isd2 = true) ∧
    (∀ isd input isd2 rest,
      pktIterNext lt isd input = .yield .PackStart isd2 rest →
        isd = false ∧ isd2 = true ∧
        ∃ len, read_pktline input = .ok (packfileBytes, len) rest) ∧
    (∀ (fuel : Nat) (input : List Nat),
      (pktIterRun lt fuel false input).1.countP (fun m => m.isStart) ≤ 1) ∧
    (∀ (fuel : Nat) (input : List Nat) (i : Nat) (m : Message),
      ((pktIterRun lt fuel false input).1)[i]? = some m →
      m.isPackish = true →
      ∃ j, j < i ∧
        ((pktIterRun lt fuel false input).1)[j]? = some Message.PackStart) := by
  refine ⟨?_, ?_, ?_, ?_⟩
  · intro input m isd2 rest h
    exact (pktIterNext_true lt input m isd2 rest h).1
  · intro isd input isd2 rest h
    exact pktIterNext_packstart lt isd input isd2 rest h
  · intro fuel input
    exact (pktIterRun_false_spec lt fuel input).1
  · intro fuel input i m hm hpk
    exact (pktIterRun_false_spec lt fuel input).2 i m hm hpk

/-- Concrete response: a `packfile\n` frame followed by a side-band
channel-1 frame carrying the byte 5. -/
def demoC7 : List Nat := [48, 48, 48, 100] ++ packfileBytes ++ [48, 48, 48, 54, 1, 5]

/-- C7 witness: in the concrete run
`[PackStart, PackData [5]]`, the `PackData` at index 1 is preceded by a
`PackStart`. -/
theorem c7_witness :
    ∃ j, j < 1 ∧
      ((pktIterRun (fun l => l) 3 false demoC7).1)[j]? = some Message.PackStart :=
  (c7_pktiter_ordering (fun l => l)).2.2.2 3 demoC7 1 (Message.PackData [5])
    (by decide) (by decide)

/-! ### C10: side-band frames with an unknown channel byte panic -/

/-- C10: once `PktIter` is in side-band mode, a frame whose first decoded
byte is not 1, 2 or 3 makes `next` panic (the `unreachable!()` arm) rather
than return a message or an error value; in particular the Delim (`0001`)
and ResponseEnd (`0002`) sentinel frames, whose decoded payload is the
ASCII hex of their length and hence begins with byte `0x30`, panic. -/
theorem c10_sideband_panic (lt : List Nat → List Nat) :
    (∀ input data len rest d0 dtail,
      read_pktline input = .ok (data, len) rest → 0 < len →
      data = d0 :: dtail → d0 ≠ 1 → d0 ≠ 2 → d0 ≠ 3 →
      pktIterNext lt true input = .panicked) ∧
    (∀ rest : List Nat,
      read_pktline ([48, 48, 48, 49] ++ rest) = .ok ([48, 48, 48, 49], 1) rest ∧
      pktIterNext lt true ([48, 48, 48, 49] ++ rest) = .panicked ∧
      read_pktline ([48, 48, 48, 50] ++ rest) = .ok ([48, 48, 48, 50], 2) rest ∧
      pktIterNext lt true ([48, 48, 48, 50] ++ rest) = .panicked) := by
  have main : ∀ input data len rest d0 dtail,
      read_pktline input = .ok (data, len) rest → 0 < len →
      data = d0 :: dtail → d0 ≠ 1 → d0 ≠ 2 → d0 ≠ 3 →
      pktIterNext lt true input = .panicked := by
    intro input data len rest d0 dtail hrl hlen hdata h1 h2 h3
    unfold pktIterNext
    rw [hrl]
    dsimp only
    rw [if_neg (by omega : ¬(len = 0 ∧ data.length = 0))]
    rw [if_pos ⟨hlen, rfl⟩]
    subst hdata
    dsimp only
    rw [if_neg h1, if_neg h2, if_neg h3]
  constructor
  · exact main
  · intro rest
    have hd1 : read_pktline ([48, 48, 48, 49] ++ rest) = .ok ([48, 48, 48, 49], 1) rest := by
      have h := read_pktline_append_small [48, 48, 48, 49] rest 1
        (by decide) (by decide) (by decide)
      rw [(by decide : hexFormat4 1 = [48, 48, 48, 49])] at h
      exact h
    have hd2 : read_pktline ([48, 48, 48, 50] ++ rest) = .ok ([48, 48, 48, 50], 2) rest := by
      have h := read_pktline_append_small [48, 48, 48, 50] rest 2
        (by decide) (by decide) (by decide)
      rw [(by decide : hexFormat4 2 = [48, 48, 48, 50])] at h
      exact h
    refine ⟨hd1, ?_, hd2, ?_⟩
    · exact main _ _ 1 rest 48 [48, 48, 49] hd1 (by omega) rfl
        (by omega) (by omega) (by omega)
    · exact main _ _ 2 rest 48 [48, 48, 50] hd2 (by omega) rfl
        (by omega) (by omega) (by omega)

/-- C10 witness: a lone Delim sentinel frame in side-band mode decodes to
payload `"0001"` and makes `next` panic. -/
theorem c10_witness :
    pktIterNext (fun l => l) true [48, 48, 48, 49] = .panicked :=
  (c10_sideband_panic (fun l => l)).1 [48, 48, 48, 49] [48, 48, 48, 49] 1 []
    48 [48, 48, 49] (by decide) (by decide) (by decide) (by decide) (by decide)
    (by decide)

/-! ## client.rs: `Client::ls_ref`

`ls_ref(prefix)` sends a `ls-refs` command (HTTP, external), then decodes
the FIRST pkt-line of the response, truncates its payload to forty bytes
and UTF-8-validates it (`String::from_utf8`).  The decoding half is
embedded here over the raw response bytes. -/

/-- The `ClientError` enum of `client.rs` (payloads reduced to the data
relevant here; note there is no `InvalidRefHash` variant). -/
inductive ClientError where
  | InvalidServerStatus : ClientError
  | InvalidContentType : List Nat → List Nat → ClientError
  | RequestError : ClientError
  | IOError : ClientError
  | Utf8Error : ClientError
deriving DecidableEq

/-- Standard UTF-8 validity of a byte list, as checked by
`String::from_utf8` (RFC 3629: no overlong forms, no surrogates, maximum
U+10FFFF). -/
def utf8Valid : List Nat → Bool
  | [] => true
  | b :: rest =>
    if b < 128 then utf8Valid rest
    else if b < 194 then false
    else if b < 224 then
      match rest with
      | c :: r => (decide (128 ≤ c ∧ c < 192)) && utf8Valid r
      | [] => false
    else if b < 240 then
      match rest with
      | c :: d :: r =>
        (if b = 224 then decide (160 ≤ c ∧ c < 192)
         else if b = 237 then decide (128 ≤ c ∧ c < 160)
         else decide (128 ≤ c ∧ c < 192)) &&
        (decide (128 ≤ d ∧ d < 192)) && utf8Valid r
      | _ => false
    else if b < 245 then
      match rest with
      | c :: d :: e :: r =>
        (if b = 240 then decide (144 ≤ c ∧ c < 192)
         else if b = 244 then decide (128 ≤ c ∧ c < 144)
         else decide (128 ≤ c ∧ c < 192)) &&
        (decide (128 ≤ d ∧ d < 192)) && (decide (128 ≤ e ∧ e < 192)) && utf8Valid r
      | _ => false
    else false

/-- Outcome of `ls_ref` after the HTTP response bytes are in hand. -/
inductive LsOut where
  | ok : List Nat → LsOut
  | err : ClientError → LsOut
  | panicked : LsOut
deriving DecidableEq

/-- The response-decoding tail of `Client::ls_ref`: read the first
pkt-line of the response (whatever its kind), truncate the payload to 40
bytes, validate as UTF-8.  The returned string is modelled as its bytes. -/
def ls_ref_decode (response : List Nat) : LsOut :=
  match read_pktline response with
  | .panicked => .panicked
  | .ok (data, _) _ =>
    if utf8Valid (List.take 40 data) then .ok (List.take 40 data)
    else .err .Utf8Error

/-- C8 counterexample: on the response consisting of a single Flush frame
`"0000"` — which contains no Normal frame — `ls_ref` does not fail with
`InvalidRefHash` (no such `ClientError` variant exists); it returns the
sentinel's own payload text `"0000"`. -/
theorem c8_counterexample :
    ls_ref_decode [48, 48, 48, 48] = .ok [48, 48, 48, 48] := by
  decide

/-- C8 (amended): `ls_ref` returns the first (up to) 40 bytes of the FIRST
pkt-line's payload of the response — regardless of the frame's kind —
decoded as UTF-8; when the response contains no Normal frame it does not
fail with `InvalidRefHash` (`ClientError` has no such variant). -/
theorem c8_first_frame_prefix (response data : List Nat) (len : Nat) (rest : List Nat)
    (h : read_pktline response = .ok (data, len) rest)
    (hu : utf8Valid (List.take 40 data) = true) :
    ls_ref_decode response = .ok (List.take 40 data) := by
  unfold ls_ref_decode
  rw [h]
  dsimp only
  rw [if_pos hu]

/-- C8 witness: the amended statement evaluated on the flush-only
response. -/
theorem c8_witness :
    ls_ref_decode [48, 48, 48, 48] = .ok (List.take 40 [48, 48, 48, 48]) :=
  c8_first_frame_prefix [48, 48, 48, 48] [48, 48, 48, 48] 0 []
    (by decide) (by decide)

/-! ## pack.rs: the PACK decoder

`Pack::from_reader` consumes a seekable byte source.  The model keeps the
full byte list and tracks the cursor by the running `offset`/position.
Two external collaborators are abstract parameters:

* `infl : List Nat → InflRes` models the net effect of the code's
  miniz_oxide streaming loop on one object's zlib stream: starting from
  the given byte suffix it either reaches `TINFLStatus::Done` after
  consuming `consumed` compressed bytes and producing `data` decompressed
  bytes in total (the code rewinds the reader so exactly `consumed` bytes
  are net-consumed), or ends with a non-`Done` terminal status (mapped to
  `InvalidTINFLStatus`), or never terminates (truncated input);
* `sha1f : List Nat → List Nat` models the SHA-1 function of the sha1
  crate (used both for `git_sha1` and for the trailing checksum). -/

/-- Net result of running the per-object inflate loop of
`Pack::from_reader` on a byte suffix. -/
inductive InflRes where
  | done : Nat → List Nat → InflRes
  | fail : Nat → InflRes
  | hang : InflRes

/-- The `UnpackError` enum of `pack.rs` (the TINFL status is abstracted to
a numeric code; all `std::io::Error`s collapse to `IOError`).  Note there
is no `InvalidObject` variant. -/
inductive UnpackError where
  | InvalidObjectType : UnpackError
  | InvalidTINFLStatus : Nat → UnpackError
  | InvalidHash : UnpackError
  | IOError : UnpackError
deriving DecidableEq

/-- The `ObjectType` enum of `pack.rs`. -/
inductive ObjectType where
  | Commit : ObjectType
  | Tree : ObjectType
  | Blob : ObjectType
  | Tag : ObjectType
  | OfsDelta : Nat → ObjectType
  | RefDelta : List Nat → ObjectType
deriving DecidableEq

/-- The `Object` struct of `pack.rs`. -/
structure Object where
  object_type : ObjectType
  data : List Nat
  compressed_length : Nat
  offset : Nat
deriving DecidableEq

/-- The `Pack` struct of `pack.rs`.  The two `HashMap`s are modelled as
insertion-ordered association lists; claim C1 speaks about the keys of
`offsets` in insertion (on-wire) order. -/
structure Pack where
  version : Nat
  objects : List (List Nat × Object)
  offsets : List (Nat × List Nat)
  sha1 : List Nat
deriving DecidableEq

/-- `HashMap::insert`: replace the value at an existing key, otherwise add
the binding (modelled at the end of the association list). -/
def insertAssoc (k : List Nat) (v : Object) (l : List (List Nat × Object)) :
    List (List Nat × Object) :=
  if l.any (fun p => p.1 == k) then l.map (fun p => if p.1 == k then (k, v) else p)
  else l ++ [(k, v)]

/-- Fuelled ASCII decimal digit expansion (for `format!("{}", n)`). -/
def decimalDigitsAux : Nat → Nat → List Nat
  | 0, _ => []
  | fuel + 1, n =>
    if n < 10 then [48 + n]
    else decimalDigitsAux fuel (n / 10) ++ [48 + n % 10]

/-- ASCII decimal digits of `n`. -/
def decimalDigits (n : Nat) : List Nat := decimalDigitsAux (n + 1) n

/-- `git_sha1(prefix, input)` of `utils.rs`:
`SHA1(prefix || ' ' || decimal(len(input)) || 0x00 || input)`. -/
def git_sha1 (sha1f : List Nat → List Nat) (pre input : List Nat) : List Nat :=
  sha1f (pre ++ [32] ++ decimalDigits input.length ++ [0] ++ input)

/-- Kind prefix string used by `Pack::from_reader` when hashing an object
(delta kinds use the placeholder strings `"o"` / `"r"`). -/
def typeTag : ObjectType → List Nat
  | .Commit => [99, 111, 109, 109, 105, 116]
  | .Tree => [116, 114, 101, 101]
  | .Blob => [98, 108, 111, 98]
  | .Tag => [116, 97, 103]
  | .OfsDelta _ => [111]
  | .RefDelta _ => [114]

/-- Continuation loop of `vint_from_reader`: while the current byte has
its high bit set, read another byte and accumulate 7 more bits of `len`.
Returns `(len, bytes_used, rest)`; `none` models an I/O error (EOF). -/
def vintCont (n len shift used : Nat) (bytes : List Nat) :
    Option (Nat × Nat × List Nat) :=
  if n &&& 128 = 0 then some (len, used, bytes)
  else
    match bytes with
    | [] => none
    | m :: rest => vintCont m (len ||| ((m &&& 127) <<< shift)) (shift + 7) (used + 1) rest

/-- `vint_from_reader`: read the git variable integer, extracting
`(object_type, length, bytes_used)`. -/
def vintFrom (bytes : List Nat) : Option (Nat × Nat × Nat) :=
  match bytes with
  | [] => none
  | n :: rest =>
    match vintCont n (n &&& 15) 4 1 rest with
    | none => none
    | some (len, used, _) => some ((n >>> 4) &&& 7, len, used)

/-- Continuation loop of `ofs_from_reader`: while the high bit is set,
`distance = ((distance + 1) << 7) + (byte & 0x7f)`. -/
def ofsCont (n dist used : Nat) (bytes : List Nat) : Option (Nat × Nat) :=
  if n &&& 128 = 0 then some (dist, used)
  else
    match bytes with
    | [] => none
    | m :: rest => ofsCont m (((dist + 1) <<< 7) + (m &&& 127)) (used + 1) rest

/-- `ofs_from_reader`: read the OFS_DELTA negative-offset varint,
extracting `(distance, bytes_used)`. -/
def ofsFrom (bytes : List Nat) : Option (Nat × Nat) :=
  match bytes with
  | [] => none
  | n :: rest => ofsCont n (n &&& 127) 1 rest

/-- `u32_be` at byte position `i` of the stream: four bytes, big-endian;
`none` models the `read_exact` EOF error. -/
def u32beAt (bytes : List Nat) (i : Nat) : Option Nat :=
  match List.take 4 (List.drop i bytes) with
  | [a, b, c, d] => some (((a * 256 + b) * 256 + c) * 256 + d)
  | _ => none

/-- The object-entry header of `Pack::from_reader`: the size/type varint
followed by the OFS_DELTA / REF_DELTA suffix.  Returns
`(object_type, decompressed_length, bytes_used)`. -/
def readEntryHeader (bytes : List Nat) (pos : Nat) :
    Except UnpackError (ObjectType × Nat × Nat) :=
  match vintFrom (List.drop pos bytes) with
  | none => .error .IOError
  | some (ty, declLen, used) =>
    if ty = 1 then .ok (.Commit, declLen, used)
    else if ty = 2 then .ok (.Tree, declLen, used)
    else if ty = 3 then .ok (.Blob, declLen, used)
    else if ty = 4 then .ok (.Tag, declLen, used)
    else if ty = 6 then
      match ofsFrom (List.drop (pos + used) bytes) with
      | none => .error .IOError
      | some (d, u) => .ok (.OfsDelta d, declLen, used + u)
    else if ty = 7 then
      if 20 ≤ (List.drop (pos + used) bytes).length then
        .ok (.RefDelta (List.take 20 (List.drop (pos + used) bytes)), declLen, used + 20)
      else .error .IOError
    else .error .InvalidObjectType

/-- Outcome of the object loop of `Pack::from_reader`: the accumulated
offset map, object map, final position, final offset and the list of
per-object `object_size` values (header + suffix + compressed bytes);
or an error / panic (failed `assert_eq!`) / divergence (the tail-drain
`while` loop can never reach the declared length). -/
inductive LoopOut where
  | done : List (Nat × List Nat) → List (List Nat × Object) → Nat → Nat →
      List Nat → LoopOut
  | err : UnpackError → LoopOut
  | panicked : LoopOut
  | diverge : LoopOut

/-- The per-object loop of `Pack::from_reader`.  One iteration reads the
entry header, runs the inflate loop (`infl`), checks the decompressed
length (`assert_eq!` panics if the data is too long; too short with an
exhausted inflater means the drain `while` never terminates), hashes the
object, records it under the running `offset`, and advances `offset` and
the reader position by `object_size`. -/
def fromReaderLoop (infl : List Nat → InflRes) (sha1f : List Nat → List Nat)
    (bytes : List Nat) :
    Nat → Nat → Nat → List (Nat × List Nat) → List (List Nat × Object) →
    List Nat → LoopOut
  | 0, pos, offset, offsets, objects, sizes => .done offsets objects pos offset sizes
  | fuel + 1, pos, offset, offsets, objects, sizes =>
    match readEntryHeader bytes pos with
    | .error e => .err e
    | .ok (ty, declLen, used) =>
      match infl (List.drop (pos + used) bytes) with
      | .fail s => .err (.InvalidTINFLStatus s)
      | .hang => .diverge
      | .done c d =>
        if d.length = declLen then
          fromReaderLoop infl sha1f bytes fuel (pos + (used + c)) (offset + (used + c))
            (offsets ++ [(offset, git_sha1 sha1f (typeTag ty) d)])
            (insertAssoc (git_sha1 sha1f (typeTag ty) d)
              { object_type := ty, data := d, compressed_length := c, offset := offset }
              objects)
            (sizes ++ [used + c])
        else if declLen < d.length then .panicked
        else .diverge

/-- Outcome of `Pack::from_reader`. -/
inductive POut where
  | ok : Pack → POut
  | err : UnpackError → POut
  | panicked : POut
  | diverge : POut

/-- `Pack::from_reader`: check the `PACK` token, read version and object
count, run the object loop, then re-hash the prefix `[0, offset)` and
compare with the trailing 20-byte checksum. -/
def fromReader (infl : List Nat → InflRes) (sha1f : List Nat → List Nat)
    (bytes : List Nat) : POut :=
  if (List.take 4 bytes).length ≠ 4 then .err .IOError
  else if List.take 4 bytes ≠ [80, 65, 67, 75] then .err .IOError
  else
    match u32beAt bytes 4 with
    | none => .err .IOError
    | some version =>
      match u32beAt bytes 8 with
      | none => .err .IOError
      | some objects =>
        match fromReaderLoop infl sha1f bytes objects 12 12 [] [] [] with
        | .err e => .err e
        | .panicked => .panicked
        | .diverge => .diverge
        | .done offs objs _fpos foff _sizes =>
          if (List.take 20 (List.drop foff bytes)).length ≠ 20 then .err .IOError
          else if sha1f (List.take foff bytes) ≠ List.take 20 (List.drop foff bytes) then
            .err .InvalidHash
          else
            .ok { version := version, objects := objs, offsets := offs,
                  sha1 := List.take 20 (List.drop foff bytes) }

/-! ### Entry headers consume at least one byte -/

lemma vintCont_used_le (bytes : List Nat) :
    ∀ n len shift used l u r,
      vintCont n len shift used bytes = some (l, u, r) → used ≤ u := by
  induction bytes with
  | nil =>
    intro n len shift used l u r h
    unfold vintCont at h
    by_cases hn : n &&& 128 = 0
    · rw [if_pos hn] at h
      simp only [Option.some.injEq, Prod.mk.injEq] at h
      omega
    · rw [if_neg hn] at h
      exact absurd h (by simp)
  | cons m rest ih =>
    intro n len shift used l u r h
    unfold vintCont at h
    by_cases hn : n &&& 128 = 0
    · rw [if_pos hn] at h
      simp only [Option.some.injEq, Prod.mk.injEq] at h
      omega
    · rw [if_neg hn] at h
      have := ih _ _ _ _ _ _ _ h
      omega

lemma vintFrom_used_pos (bytes : List Nat) (t l u : Nat)
    (h : vintFrom bytes = some (t, l, u)) : 1 ≤ u := by
  unfold vintFrom at h
  cases bytes with
  | nil => exact absurd h (by simp)
  | cons n rest =>
    dsimp only at h
    cases hv : vintCont n (n &&& 15) 4 1 rest with
    | none => rw [hv] at h; exact absurd h (by simp)
    | some p =>
      obtain ⟨len, used, r⟩ := p
      rw [hv] at h
      simp only [Option.some.injEq, Prod.mk.injEq] at h
      have := vintCont_used_le rest n (n &&& 15) 4 1 len used r hv
      omega

lemma readEntryHeader_used_pos (bytes : List Nat) (pos : Nat) (ty : ObjectType)
    (declLen used : Nat)
    (h : readEntryHeader bytes pos = .ok (ty, declLen, used)) : 1 ≤ used := by
  unfold readEntryHeader at h
  cases hv : vintFrom (List.drop pos bytes) with
  | none => rw [hv] at h; exact absurd h (by simp)
  | some p =>
    obtain ⟨t, dl, u⟩ := p
    rw [hv] at h
    dsimp only at h
    have hu := vintFrom_used_pos _ _ _ _ hv
    by_cases h1 : t = 1
    · rw [if_pos h1] at h
      injection h with hok
      injection hok with hty hrest
      injection hrest with hdl hused
      omega
    · rw [if_neg h1] at h
      by_cases h2 : t = 2
      · rw [if_pos h2] at h
        injection h with hok
        injection hok with hty hrest
        injection hrest with hdl hused
        omega
      · rw [if_neg h2] at h
        by_cases h3 : t = 3
        · rw [if_pos h3] at h
          injection h with hok
          injection hok with hty hrest
          injection hrest with hdl hused
          omega
        · rw [if_neg h3] at h
          by_cases h4 : t = 4
          · rw [if_pos h4] at h
            injection h with hok
            injection hok with hty hrest
            injection hrest with hdl hused
            omega
          · rw [if_neg h4] at h
            by_cases h6 : t = 6
            · rw [if_pos h6] at h
              cases ho : ofsFrom (List.drop (pos + u) bytes) with
              | none => rw [ho] at h; exact absurd h (by simp)
              | some q =>
                obtain ⟨dd, uu⟩ := q
                rw [ho] at h
                dsimp only at h
                injection h with hok
                injection hok with hty hrest
                injection hrest with hdl hused
                omega
            · rw [if_neg h6] at h
              by_cases h7 : t = 7
              · rw [if_pos h7] at h
                by_cases h20 : 20 ≤ (List.drop (pos + u) bytes).length
                · rw [if_pos h20] at h
                  injection h with hok
                  injection hok with hty hrest
                  injection hrest with hdl hused
                  omega
                · rw [if_neg h20] at h
                  exact absurd h (by simp)
              · rw [if_neg h7] at h
                exact absurd h (by simp)

/-! ### The loop invariant of `Pack::from_reader` -/

lemma fromReaderLoop_spec (infl : List Nat → InflRes) (sha1f : List Nat → List Nat)
    (bytes : List Nat) :
    ∀ (fuel pos offset : Nat) (offsets : List (Nat × List Nat))
      (objects : List (List Nat × Object)) (sizes : List Nat)
      (offs : List (Nat × List Nat)) (objs : List (List Nat × Object))
      (fpos foff : Nat) (sz : List Nat),
      fromReaderLoop infl sha1f bytes fuel pos offset offsets objects sizes =
        .done offs objs fpos foff sz →
      ∃ ds dO, sz = sizes ++ ds ∧ offs = offsets ++ dO ∧
        foff = offset + ds.sum ∧
        List.Chain' (· < ·) (dO.map Prod.fst) ∧
        (∀ y ∈ dO.map Prod.fst, offset ≤ y ∧ y < foff) := by
  intro fuel
  induction fuel with
  | zero =>
    intro pos offset offsets objects sizes offs objs fpos foff sz h
    unfold fromReaderLoop at h
    injection h with h1 h2 h3 h4 h5
    refine ⟨[], [], by rw [← h5]; simp, by rw [← h1]; simp,
      by rw [← h4, List.sum_nil]; omega, by simp, by simp⟩

  | succ fuel ih =>
    intro pos offset offsets objects sizes offs objs fpos foff sz h
    unfold fromReaderLoop at h
    cases hhd : readEntryHeader bytes pos with
    | error e => rw [hhd] at h; exact absurd h (by simp)
    | ok trip =>
      obtain ⟨ty, declLen, used⟩ := trip
      rw [hhd] at h
      dsimp only at h
      cases hin : infl (List.drop (pos + used) bytes) with
      | fail s => rw [hin] at h; exact absurd h (by simp)
      | hang => rw [hin] at h; exact absurd h (by simp)
      | done c d =>
        rw [hin] at h
        dsimp only at h
        by_cases hlen : d.length = declLen
        · rw [if_pos hlen] at h
          obtain ⟨ds, dO, hsz, hoffs, hfoff, hchain, hbound⟩ :=
            ih (pos + (used + c)) (offset + (used + c))
              (offsets ++ [(offset, git_sha1 sha1f (typeTag ty) d)])
              (insertAssoc (git_sha1 sha1f (typeTag ty) d)
                { object_type := ty, data := d, compressed_length := c,
                  offset := offset } objects)
              (sizes ++ [used + c]) offs objs fpos foff sz h
          have hused : 1 ≤ used := readEntryHeader_used_pos bytes pos ty declLen used hhd
          refine ⟨(used + c) :: ds,
            (offset, git_sha1 sha1f (typeTag ty) d) :: dO, ?_, ?_, ?_, ?_, ?_⟩
          · rw [hsz]; simp
          · rw [hoffs]; simp
          · rw [hfoff, List.sum_cons]; omega
          · rw [List.map_cons]
            rw [List.chain'_cons']
            refine ⟨?_, hchain⟩
            intro b hb
            have hbmem : b ∈ dO.map Prod.fst := List.mem_of_mem_head? hb
            have := hbound b hbmem
            omega
          · intro y hy
            rw [List.map_cons, List.mem_cons] at hy
            rcases hy with rfl | hy
            · constructor
              · exact le_refl _
              · rw [hfoff]; omega
            · have := hbound y hy
              omega
        · rw [if_neg hlen] at h
          by_cases hgt : declLen < d.length
          · rw [if_pos hgt] at h; exact absurd h (by simp)
          · rw [if_neg hgt] at h; exact absurd h (by simp)

/-! ### C1: pack structural identity -/

/-- C1: for every pack accepted by `Pack::from_reader`, the recorded
`offsets` keys are strictly ascending in insertion (on-wire) order, the
final running offset equals 12 plus the sum over all objects of
`object_size` (entry-header bytes + delta-suffix bytes +
`compressed_length`, exactly as accumulated by the loop), and the SHA-1
of the pack bytes in `[0, offset)` equals the trailing 20-byte checksum
stored in the returned `Pack`. -/
theorem c1_pack_structural_identity (infl : List Nat → InflRes)
    (sha1f : List Nat → List Nat) (bytes : List Nat) (pack : Pack)
    (h : fromReader infl sha1f bytes = .ok pack) :
    List.Chain' (· < ·) (pack.offsets.map Prod.fst) ∧
    ∃ nobj offs objs fpos foff sizes,
      u32beAt bytes 8 = some nobj ∧
      fromReaderLoop infl sha1f bytes nobj 12 12 [] [] [] =
        .done offs objs fpos foff sizes ∧
      pack.offsets = offs ∧
      foff = 12 + sizes.sum ∧
      sha1f (List.take foff bytes) = pack.sha1 := by
  unfold fromReader at h
  by_cases h1 : (List.take 4 bytes).length ≠ 4
  · rw [if_pos h1] at h; exact absurd h (by simp)
  rw [if_neg h1] at h
  by_cases h2 : List.take 4 bytes ≠ [80, 65, 67, 75]
  · rw [if_pos h2] at h; exact absurd h (by simp)
  rw [if_neg h2] at h
  cases hv : u32beAt bytes 4 with
  | none => rw [hv] at h; exact absurd h (by simp)
  | some version =>
    rw [hv] at h
    dsimp only at h
    cases hn : u32beAt bytes 8 with
    | none => rw [hn] at h; exact absurd h (by simp)
    | some nobj =>
      rw [hn] at h
      dsimp only at h
      cases hloop : fromReaderLoop infl sha1f bytes nobj 12 12 [] [] [] with
      | err e => rw [hloop] at h; exact absurd h (by simp)
      | panicked => rw [hloop] at h; exact absurd h (by simp)
      | diverge => rw [hloop] at h; exact absurd h (by simp)
      | done offs objs fpos foff sizes =>
        rw [hloop] at h
        dsimp only at h
        by_cases hck : (List.take 20 (List.drop foff bytes)).length ≠ 20
        · rw [if_pos hck] at h; exact absurd h (by simp)
        rw [if_neg hck] at h
        by_cases hsha : sha1f (List.take foff bytes) ≠ List.take 20 (List.drop foff bytes)
        · rw [if_pos hsha] at h; exact absurd h (by simp)
        rw [if_neg hsha] at h
        injection h with hpack
        obtain ⟨ds, dO, hsz, hoffs, hfoff, hchain, hbound⟩ :=
          fromReaderLoop_spec infl sha1f bytes nobj 12 12 [] [] [] offs objs
            fpos foff sizes hloop
        have hoffs2 : offs = dO := by rw [hoffs]; simp
        constructor
        · rw [← hpack]
          dsimp only
          rw [hoffs2]
          exact hchain
        · refine ⟨nobj, offs, objs, fpos, foff, sizes, rfl, hloop, ?_, ?_, ?_⟩
          · rw [← hpack]
          · rw [hfoff, hsz]; simp
          · rw [← hpack]
            dsimp only
            by_contra hc
            exact hsha hc

/-- Inflate oracle for the C1 witness: every object's zlib stream consumes
one byte and decompresses to the empty payload. -/
def inflW : List Nat → InflRes := fun _ => InflRes.done 1 []

/-- SHA-1 oracle for the C1 witness: a constant digest. -/
def sha1W : List Nat → List Nat := fun _ => List.replicate 20 7

/-- A one-object pack accepted by `fromReader` under `inflW` and `sha1W`:
`PACK`, version 2, one object, a Commit entry header with declared length
0, one compressed byte, then the trailing digest. -/
def bytesW : List Nat :=
  [80, 65, 67, 75, 0, 0, 0, 2, 0, 0, 0, 1, 16, 99] ++ List.replicate 20 7

/-- The pack value `fromReader` returns on `bytesW`. -/
def packW : Pack :=
  { version := 2,
    objects := [(List.replicate 20 7,
      { object_type := ObjectType.Commit, data := [], compressed_length := 1,
        offset := 12 })],
    offsets := [(12, List.replicate 20 7)],
    sha1 := List.replicate 20 7 }

/-- C1 witness: the structural identity at the concrete accepted pack
`bytesW`. -/
theorem c1_witness :
    List.Chain' (· < ·) (packW.offsets.map Prod.fst) ∧
    ∃ nobj offs objs fpos foff sizes,
      u32beAt bytesW 8 = some nobj ∧
      fromReaderLoop inflW sha1W bytesW nobj 12 12 [] [] [] =
        .done offs objs fpos foff sizes ∧
      packW.offsets = offs ∧
      foff = 12 + sizes.sum ∧
      sha1W (List.take foff bytesW) = packW.sha1 :=
  c1_pack_structural_identity inflW sha1W bytesW packW rfl

/-! ### C4: decompressed-length disagreement -/

/-- C4 counterexample: a pack whose single object inflates to one byte
although its header declares length 0 makes `Pack::from_reader` panic
(the `assert_eq!`), not fail with an `InvalidObject` error — indeed
`UnpackError` has no such variant. -/
theorem c4_counterexample :
    fromReader (fun _ => InflRes.done 1 [9]) (fun _ => [])
      [80, 65, 67, 75, 0, 0, 0, 2, 0, 0, 0, 1, 16, 99] = POut.panicked := rfl

/-- C4 (amended): when the inflate loop reports Done but the accumulated
data cannot be completed to exactly the header-declared decompressed
length, `Pack::from_reader` does not return an error: if the data is too
long the `assert_eq!` panics, and if it is too short the tail-drain
`while` loop never terminates.  `UnpackError` has no `InvalidObject`
variant. -/
theorem c4_done_length_mismatch (infl : List Nat → InflRes)
    (sha1f : List Nat → List Nat) (bytes : List Nat)
    (fuel pos offset : Nat) (offsets : List (Nat × List Nat))
    (objects : List (List Nat × Object)) (sizes : List Nat)
    (ty : ObjectType) (declLen used c : Nat) (d : List Nat)
    (h1 : readEntryHeader bytes pos = .ok (ty, declLen, used))
    (h2 : infl (List.drop (pos + used) bytes) = .done c d)
    (h3 : d.length ≠ declLen) :
    fromReaderLoop infl sha1f bytes (fuel + 1) pos offset offsets objects sizes =
      if declLen < d.length then .panicked else .diverge := by
  unfold fromReaderLoop
  rw [h1]
  dsimp only
  rw [h2]
  dsimp only
  rw [if_neg h3]

/-- C4 witness: the mismatching object of `c4_counterexample`, one loop
step, ends in the panic outcome. -/
theorem c4_witness :
    fromReaderLoop (fun _ => InflRes.done 1 [9]) (fun _ => [])
      [80, 65, 67, 75, 0, 0, 0, 2, 0, 0, 0, 1, 16, 99] 1 12 12 [] [] [] =
      LoopOut.panicked := by
  have h := c4_done_length_mismatch (fun _ => InflRes.done 1 [9]) (fun _ => [])
    [80, 65, 67, 75, 0, 0, 0, 2, 0, 0, 0, 1, 16, 99] 0 12 12 [] [] []
    ObjectType.Commit 0 1 1 [9] rfl rfl (by decide)
  simpa using h

end AnniFetch
